import Mathlib

/-!
# golarm: a durable delayed-callback scheduler

A shallow embedding of `main.go`.

* Instants (`time.Time`) are integers: nanoseconds since the Unix epoch.  The
  range of `time.Time` (int64 seconds plus nanoseconds) is far larger than the
  range of `time.Duration`, so instants are unbounded integers here.
* `time.Duration` is an int64 count of nanoseconds; arithmetic on it wraps
  (`wrap64`), `Time.Sub` saturates.
* The process-wide variables `_collection`, `_hostName`, `_m` are fields of an
  explicit `World`; goroutines started with `go` are queues of pending work
  in the `World`, run by separate scheduler actions.
-/

namespace Golarm

/-! ## Machine integers and time -/

/-- Two's-complement wrap-around of an integer into the int64 range. -/
def wrap64 (x : Int) : Int := (x + 2 ^ 63) % 2 ^ 64 - 2 ^ 63

/-- Smallest `time.Duration`. -/
def minDuration : Int := -(2 ^ 63)

/-- Largest `time.Duration`. -/
def maxDuration : Int := 2 ^ 63 - 1

/-- The constant `time.Second`, in nanoseconds. -/
def Second : Int := 1000000000

/-- The zero `time.Time` (January 1, year 1, 00:00:00 UTC), in nanoseconds
since the Unix epoch. -/
def zeroTime : Int := -62135596800 * 1000000000

/-- `Time.Unix()`: whole seconds since the Unix epoch (rounded down). -/
def Unix (t : Int) : Int := t / 1000000000

/-- `Time.Add(d)`. -/
def Add (t d : Int) : Int := t + d

/-- `Time.Sub(u)` for instants without a monotonic clock reading: the
difference `t - u`, saturated to the range of `time.Duration`. -/
def Sub (t u : Int) : Int :=
  if t - u < minDuration then minDuration
  else if maxDuration < t - u then maxDuration
  else t - u

/-! ## Data model -/

/-- The struct `echo` (main.go, lines 30-40). -/
structure echo where
  ID : String
  Event : String
  URI : String
  HostName : String
  StartedAt : Int
  Timeout : Int
  Duration : Int
  CalculatedExpiryTime : Int
  IgnoreMissed : Bool
deriving DecidableEq

/-- The zero value of `echo`, as produced by `var e echo`. -/
def zeroEcho : echo :=
  { ID := "", Event := "", URI := "", HostName := "", StartedAt := zeroTime,
    Timeout := 0, Duration := 0, CalculatedExpiryTime := zeroTime,
    IgnoreMissed := false }

/-- A JSON object as seen by `encoding/json` when decoding into `echo`: for
each struct field, the value carried under its key, if the key is present
(and not `null`). -/
structure Body where
  id : Option String := none
  event : Option String := none
  uri : Option String := none
  hostname : Option String := none
  startedat : Option Int := none
  timeout : Option Int := none
  duration : Option Int := none
  calculatedexpirytime : Option Int := none
  ignoremissed : Option Bool := none
deriving DecidableEq

/-- A successful `json.NewDecoder(r.Body).Decode(&e)`: every field whose key
is present in the object is overwritten, every other field of `e` keeps the
value it had before the call. -/
def decode (b : Body) (e : echo) : echo :=
  { ID := b.id.getD e.ID,
    Event := b.event.getD e.Event,
    URI := b.uri.getD e.URI,
    HostName := b.hostname.getD e.HostName,
    StartedAt := b.startedat.getD e.StartedAt,
    Timeout := b.timeout.getD e.Timeout,
    Duration := b.duration.getD e.Duration,
    CalculatedExpiryTime := b.calculatedexpirytime.getD e.CalculatedExpiryTime,
    IgnoreMissed := b.ignoremissed.getD e.IgnoreMissed }

/-- The body of a request: `r.Body == nil`, a body on which `Decode` returns
an error, or a body that decodes. -/
inductive ReqBody where
  | absent
  | malformed (err : String)
  | json (b : Body)
deriving DecidableEq

/-- An HTTP request as far as `process` looks at it. -/
structure Request where
  path : String
  method : String
  body : ReqBody
deriving DecidableEq

/-- What `process` writes to the `http.ResponseWriter`: `http.Error` with a
status and a plain-text reason, or (status 200) the JSON encoding of an
alarm. -/
inductive Response where
  | error (code : Nat) (msg : String)
  | json (e : echo)
deriving DecidableEq

/-- The HTTP status of a response. -/
def Response.status : Response → Nat
  | .error code _ => code
  | .json _ => 200

/-- State of a `time.Timer`. -/
inductive TimerStatus where
  | active
  | fired
  | stopped
deriving DecidableEq

/-- A `time.Timer` created by `schedule`, with the alarm held by the
goroutine that waits on its channel. -/
structure Timer where
  status : TimerStatus
  e : echo
deriving DecidableEq

/-- Calls made to the outside: the record store and the callback URI.  In
`Post`, `timer` is the index of the timer whose firing started the delivery
(bookkeeping only), and the request goes to `e.URI` with `e` as its body. -/
inductive Call where
  | InsertOne (e : echo)
  | DeleteOne (id : String)
  | Post (timer : Nat) (e : echo)
deriving DecidableEq

/-- The process state: host identity, the documents of `_collection`, the
registry `_m` (alarm id to timer, a timer being named by its index in
`timers`), all timers created so far, the goroutines `go schedule(e)` and
`go execCallback(e)` that were started and have not run yet, and the trace of
outside calls. -/
structure World where
  hostName : String
  collection : List echo
  m : List (String × Nat)
  timers : List Timer
  scheduling : List echo
  executing : List (Nat × echo)
  calls : List Call
deriving DecidableEq

/-! ## The record store -/

/-- `_collection.InsertOne`: fails when the driver reports an error
(`err`), or when a document with the same `id` exists (the unique index on
`id` created by `setupAndCheckStorage`); otherwise the document is added. -/
def InsertOne (coll : List echo) (e : echo) (err : Option String) :
    Except String (List echo) :=
  match err with
  | some msg => .error msg
  | none =>
    if coll.any (fun d => d.ID == e.ID) then .error "E11000 duplicate key error"
    else .ok (coll ++ [e])

/-- `_collection.DeleteOne` with filter `{"id": id}`: fails when the driver
reports an error, otherwise removes the first matching document and returns
the number of documents deleted. -/
def DeleteOne (coll : List echo) (id : String) (err : Option String) :
    Except String (List echo × Nat) :=
  match err with
  | some msg => .error msg
  | none =>
    .ok (coll.eraseP (fun d => d.ID == id),
         if coll.any (fun d => d.ID == id) then 1 else 0)

/-! ## The registry `_m` and timers -/

/-- Lookup `_m[id]` with the comma-ok form. -/
def mapGet (m : List (String × Nat)) (id : String) : Option Nat :=
  m.lookup id

/-- Assignment `_m[id] = h`. -/
def mapSet (m : List (String × Nat)) (id : String) (h : Nat) : List (String × Nat) :=
  (id, h) :: m.filter (fun kv => kv.1 != id)

/-- The builtin `delete(_m, id)`. -/
def mapDelete (m : List (String × Nat)) (id : String) : List (String × Nat) :=
  m.filter (fun kv => kv.1 != id)

/-- `Timer.Stop()`: stops an active timer and returns true; returns false,
changing nothing, if the timer has already expired or been stopped. -/
def Stop (timers : List Timer) (h : Nat) : List Timer × Bool :=
  match timers[h]? with
  | some t =>
    if t.status = .active then (timers.set h { t with status := .stopped }, true)
    else (timers, false)
  | none => (timers, false)

/-! ## `process` -/

/-- The validation of a create request (main.go, line 73). -/
def missingField (e : echo) : Prop :=
  e.ID = "" ∨ e.Event = "" ∨ e.Timeout = 0 ∨ e.URI = ""

instance (e : echo) : Decidable (missingField e) := by
  unfold missingField; infer_instance

/-- Lines 79-81: stamping of an accepted alarm at the instant `now`
(`time.Now().UTC()`). -/
def stamp (e : echo) (now : Int) : echo :=
  let e := { e with StartedAt := now }
  let e := { e with Duration := wrap64 (Second * e.Timeout) }
  { e with CalculatedExpiryTime := Add e.StartedAt e.Duration }

/-- The `POST` case of `process` (lines 58-93).  `now` is the reading of the
clock, `insertErr` the error reported by the store driver, if any. -/
def processPOST (w : World) (body : ReqBody) (now : Int) (insertErr : Option String) :
    World × Response :=
  match body with
  | .absent => (w, .error 400 "Please set the request body")
  | .malformed err => (w, .error 400 err)
  | .json b =>
    let e := decode b { zeroEcho with HostName := w.hostName }
    if missingField e then
      (w, .error 400 "ID, Event, Timeout and URI are compulsory fields")
    else
      let e := stamp e now
      let w := { w with calls := w.calls ++ [Call.InsertOne e] }
      match InsertOne w.collection e insertErr with
      | .error msg => (w, .error 400 msg)
      | .ok coll =>
        ({ w with collection := coll, scheduling := w.scheduling ++ [e] }, .json e)

/-- The `DELETE` case of `process` (lines 94-140).  `deleteErr` is the error
reported by the store driver, if any. -/
def processDELETE (w : World) (body : ReqBody) (deleteErr : Option String) :
    World × Response :=
  match body with
  | .absent => (w, .error 400 "Please send a request body")
  | .malformed err => (w, .error 400 err)
  | .json b =>
    let e := decode b zeroEcho
    if e.ID = "" then (w, .error 400 "ID is a compulsory fields")
    else
      match mapGet w.m e.ID with
      | none => (w, .error 400 "Schedule not found for the ID specified")
      | some h =>
        match Stop w.timers h with
        | (_, false) =>
          (w, .error 400 "Something went wrong when attmpting to stop scheduled callback")
        | (timers, true) =>
          let w := { w with timers := timers, m := mapDelete w.m e.ID }
          let w := { w with calls := w.calls ++ [Call.DeleteOne e.ID] }
          match DeleteOne w.collection e.ID deleteErr with
          | .error msg => (w, .error 400 msg)
          | .ok (coll, _) => ({ w with collection := coll }, .json e)

/-- The handler `process` (lines 51-146). -/
def process (w : World) (r : Request) (now : Int) (storeErr : Option String) :
    World × Response :=
  if r.path ≠ "/" then (w, .error 404 "")
  else if r.method = "POST" then processPOST w r.body now storeErr
  else if r.method = "DELETE" then processDELETE w r.body storeErr
  else (w, .error 405 "")

/-! ## Scheduling and delivery -/

/-- The first half of `schedule` (lines 149-150): a new timer is created and
stored in `_m` under the alarm's id; the goroutine then blocks on the timer's
channel. -/
def schedule (w : World) (e : echo) : World :=
  { w with
    timers := w.timers ++ [{ status := .active, e := e }],
    m := mapSet w.m e.ID w.timers.length }

/-- The second half of `schedule` (lines 151-152): an active timer expires,
the goroutine waiting on its channel resumes and starts
`go execCallback(e)`.  Nothing happens for a timer that is not active. -/
def timerFires (w : World) (h : Nat) : World :=
  match w.timers[h]? with
  | some t =>
    if t.status = .active then
      { w with
        timers := w.timers.set h { t with status := .fired },
        executing := w.executing ++ [(h, t.e)] }
    else w
  | none => w

/-- The function `execCallback` (lines 155-176), run for the alarm `e` whose
timer `h` fired.  `deleteErr` is the error reported by the store driver, if
any.  The outcome of `http.Post` is only logged. -/
def execCallback (w : World) (h : Nat) (e : echo) (deleteErr : Option String) : World :=
  let w := { w with calls := w.calls ++ [Call.DeleteOne e.ID] }
  match DeleteOne w.collection e.ID deleteErr with
  | .error _ => w
  | .ok (coll, _) =>
    { w with collection := coll, calls := w.calls ++ [Call.Post h e] }

/-! ## Recovery -/

/-- The body of the recovery loop for one decoded record (lines 285-292):
`none` when the record is skipped (`continue`), otherwise the alarm handed to
`go schedule`.  `now1` and `now2` are the two readings of the clock, at
line 285 and at line 290. -/
def recoverRecord (e : echo) (now1 now2 : Int) : Option echo :=
  if Unix e.CalculatedExpiryTime < Unix now1 ∧ e.IgnoreMissed = true then none
  else some { e with Duration := wrap64 (-(Sub now2 e.CalculatedExpiryTime)) }

/-- The recovery loop of `setupAndCheckStorage` (lines 278-293) over the
cursor: each item is the outcome of `cur.Decode` with the two clock readings
of its iteration.  The result lists the alarms handed to `go schedule`; a
decode error ends the loop. -/
def recoveryLoop : List (Except String echo × Int × Int) → List echo
  | [] => []
  | (.error _, _, _) :: _ => []
  | (.ok e, now1, now2) :: rest =>
    match recoverRecord e now1 now2 with
    | none => recoveryLoop rest
    | some e' => e' :: recoveryLoop rest

/-- The state in which `main` starts serving: the store holds `coll`, the
registry is empty, and the alarms chosen by the recovery loop wait to be
scheduled. -/
def boot (host : String) (coll : List echo)
    (cursor : List (Except String echo × Int × Int)) : World :=
  { hostName := host, collection := coll, m := [], timers := [],
    scheduling := recoveryLoop cursor, executing := [], calls := [] }

/-! ## Executions -/

/-- One atomic step of the process. -/
inductive Action where
  | request (r : Request) (now : Int) (storeErr : Option String)
  | runSchedule (i : Nat)
  | timerFires (h : Nat)
  | runExec (i : Nat) (deleteErr : Option String)
deriving DecidableEq

/-- The effect of one step: a request is handled, the `i`-th waiting
`go schedule(e)` runs up to its wait, a timer expires, or the `i`-th waiting
`go execCallback(e)` runs. -/
def step (w : World) : Action → World
  | .request r now storeErr => (process w r now storeErr).1
  | .runSchedule i =>
    match w.scheduling[i]? with
    | some e => schedule { w with scheduling := w.scheduling.eraseIdx i } e
    | none => w
  | .timerFires h => timerFires w h
  | .runExec i deleteErr =>
    match w.executing[i]? with
    | some (h, e) =>
      execCallback { w with executing := w.executing.eraseIdx i } h e deleteErr
    | none => w

/-- A finite execution. -/
def run (w : World) : List Action → World
  | [] => w
  | a :: rest => run (step w a) rest

/-- Alarm ids are unique in the collection (the unique index on `id`). -/
def uniqueIds (coll : List echo) : Prop := (coll.map (fun d => d.ID)).Nodup

instance (coll : List echo) : Decidable (uniqueIds coll) := by
  unfold uniqueIds; infer_instance

/-- The states the process can be in: those reached by some execution from a
start state whose store has unique ids. -/
def Reachable (w : World) : Prop :=
  ∃ host coll cursor acts, uniqueIds coll ∧ w = run (boot host coll cursor) acts

/-! ## Sample data -/

/-- The create request of the end-to-end example, with a chosen timeout. -/
def sampleBody (t : Int) : Body :=
  { id := some "a1", event := some "ping", uri := some "http://x/cb", timeout := some t }

/-- The alarm of the end-to-end example with its system-set fields filled
in. -/
def sampleAlarm (host : String) (started timeout duration expiry : Int) : echo :=
  { ID := "a1", Event := "ping", URI := "http://x/cb", HostName := host,
    StartedAt := started, Timeout := timeout, Duration := duration,
    CalculatedExpiryTime := expiry, IgnoreMissed := false }

/-- An empty process on host `h1`. -/
def w0 : World := boot "h1" [] []


/-! ## Invariants of executions: definitions -/

/-- From `ts` to `ts'`, every timer that is not active keeps its state and
its alarm. -/
@[reducible]
def Frozen (ts ts' : List Timer) : Prop :=
  ∀ (h : Nat) (t : Timer), ts[h]? = some t → t.status ≠ .active → ts'[h]? = some t

/-- A delivery for timer `h` is under way or done: `execCallback` for it has
been started and not yet run, or its HTTP POST has been attempted. -/
def delivering (w : World) (h : Nat) (e : echo) : Prop :=
  (h, e) ∈ w.executing ∨ Call.Post h e ∈ w.calls

/-- Ids are unique in the store, and every delivery belongs to a timer that
has fired. -/
def Inv (w : World) : Prop :=
  uniqueIds w.collection ∧
  ∀ h e, delivering w h e → ∃ t, w.timers[h]? = some t ∧ t.status = .fired

/-- What one step may do, as far as the invariant is concerned. -/
structure Evolves (w w' : World) : Prop where
  frozen : Frozen w.timers w'.timers
  deliveries : ∀ h e, delivering w' h e →
    delivering w h e ∨ ∃ t, w'.timers[h]? = some t ∧ t.status = .fired
  unique : uniqueIds w.collection → uniqueIds w'.collection

/-! ## Sample executions -/

/-- A process in which alarm `a1` was created and registered and has not
fired. -/
def wPending : World :=
  run (boot "h1" [] [])
    [.request ⟨"/", "POST", .json (sampleBody 2)⟩ 1000 none, .runSchedule 0]

/-- A process in which alarm `a1` was created, registered, and has fired and
been delivered. -/
def wFired : World :=
  run w0 [.request ⟨"/", "POST", .json (sampleBody 2)⟩ 1000 none, .runSchedule 0,
          .timerFires 0, .runExec 0 none]

/-! ## Create requests -/

/-- In range, the int64 wrap-around changes nothing. -/
theorem wrap64_of_fits (x : Int) (h1 : minDuration ≤ x) (h2 : x ≤ maxDuration) :
    wrap64 x = x := by
  unfold wrap64
  unfold minDuration at h1
  unfold maxDuration at h2
  have h : (x + 2 ^ 63) % 2 ^ 64 = x + 2 ^ 63 :=
    Int.emod_eq_of_lt (by omega) (by omega)
  omega

/-- The fields that `decode` leaves to the caller and `stamp` does not touch. -/
theorem stamp_fields (e : echo) (now : Int) :
    (stamp e now).ID = e.ID ∧ (stamp e now).HostName = e.HostName ∧
    (stamp e now).Timeout = e.Timeout ∧ (stamp e now).StartedAt = now ∧
    (stamp e now).Duration = wrap64 (Second * e.Timeout) ∧
    (stamp e now).CalculatedExpiryTime = now + wrap64 (Second * e.Timeout) := by
  simp [stamp, Add]

/-- A create request that passes validation issues exactly one store call,
the insert of the stamped alarm. -/
theorem processPOST_valid_calls (w : World) (b : Body) (now : Int)
    (insertErr : Option String)
    (hv : ¬ missingField (decode b { zeroEcho with HostName := w.hostName })) :
    (processPOST w (.json b) now insertErr).1.calls =
      w.calls ++ [Call.InsertOne
        (stamp (decode b { zeroEcho with HostName := w.hostName }) now)] := by
  simp only [processPOST, if_neg hv]
  split <;> rfl

/-- A create request that fails validation is answered 400 and changes
nothing. -/
theorem processPOST_invalid (w : World) (b : Body) (now : Int)
    (insertErr : Option String)
    (hv : missingField (decode b { zeroEcho with HostName := w.hostName })) :
    processPOST w (.json b) now insertErr =
      (w, .error 400 "ID, Event, Timeout and URI are compulsory fields") := by
  simp only [processPOST, if_pos hv]

/-- A successful insert appends the document. -/
theorem InsertOne_ok (coll : List echo) (e : echo) (err : Option String)
    (c : List echo) (h : InsertOne coll e err = .ok c) : c = coll ++ [e] := by
  unfold InsertOne at h
  cases err with
  | some msg => cases h
  | none =>
    simp only at h
    split at h
    · cases h
    · injection h with h
      exact h.symm

/-- An accepted create request: the alarm returned is the stamped decoded
body, and it is the alarm persisted and scheduled. -/
theorem processPOST_accepted (w : World) (b : Body) (now : Int)
    (insertErr : Option String) (e : echo)
    (h : (processPOST w (.json b) now insertErr).2 = .json e) :
    ¬ missingField (decode b { zeroEcho with HostName := w.hostName }) ∧
    e = stamp (decode b { zeroEcho with HostName := w.hostName }) now ∧
    (processPOST w (.json b) now insertErr).1.collection = w.collection ++ [e] ∧
    (processPOST w (.json b) now insertErr).1.scheduling = w.scheduling ++ [e] := by
  by_cases hv : missingField (decode b { zeroEcho with HostName := w.hostName })
  · rw [processPOST_invalid w b now insertErr hv] at h
    cases h
  · refine ⟨hv, ?_⟩
    cases hI : InsertOne w.collection
        (stamp (decode b { zeroEcho with HostName := w.hostName }) now) insertErr with
    | error msg =>
      simp only [processPOST, if_neg hv, hI] at h
      cases h
    | ok coll =>
      have hc := InsertOne_ok _ _ _ _ hI
      simp only [processPOST, if_neg hv, hI] at h ⊢
      injection h with h
      subst h
      subst hc
      exact ⟨rfl, rfl, rfl⟩

/-- C1: a create request whose body decodes is rejected by validation (status
400, the process state unchanged: nothing persisted, nothing scheduled, no
store call) if and only if id is empty, or event is empty, or timeout is 0,
or uri is empty; in every other case the next thing the handler does is the
store insert of the stamped alarm. -/
theorem C1_create_rejected_iff_field_missing (w : World) (b : Body) (now : Int)
    (insertErr : Option String) :
    (((processPOST w (.json b) now insertErr).2.status = 400 ∧
        (processPOST w (.json b) now insertErr).1 = w) ↔
      (b.id.getD "" = "" ∨ b.event.getD "" = "" ∨ b.timeout.getD 0 = 0 ∨
        b.uri.getD "" = "")) ∧
    (¬ (b.id.getD "" = "" ∨ b.event.getD "" = "" ∨ b.timeout.getD 0 = 0 ∨
        b.uri.getD "" = "") →
      (processPOST w (.json b) now insertErr).1.calls =
        w.calls ++ [Call.InsertOne
          (stamp (decode b { zeroEcho with HostName := w.hostName }) now)]) := by
  have hm : missingField (decode b { zeroEcho with HostName := w.hostName }) ↔
      (b.id.getD "" = "" ∨ b.event.getD "" = "" ∨ b.timeout.getD 0 = 0 ∨
        b.uri.getD "" = "") := by
    simp [missingField, decode, zeroEcho]
  rw [← hm]
  refine ⟨⟨?_, ?_⟩, ?_⟩
  · rintro ⟨_, hw⟩
    by_contra hv
    have hc := processPOST_valid_calls w b now insertErr hv
    rw [hw] at hc
    have hl := congrArg List.length hc
    simp at hl
  · intro hv
    rw [processPOST_invalid w b now insertErr hv]
    exact ⟨rfl, rfl⟩
  · intro hv
    exact processPOST_valid_calls w b now insertErr hv

/-- C2: on host `h1`, a valid create request whose body carries
`"hostname": "other"` is accepted, and the alarm returned, persisted and
scheduled has hostName `other`, not `h1`: the assignment of `_hostName`
(line 66) comes before `Decode` (line 67), which overwrites it. -/
theorem C2_hostname_taken_from_body :
    w0.hostName = "h1" ∧
    processPOST w0 (.json { sampleBody 2 with hostname := some "other" }) 1000 none =
      ({ w0 with
          collection := [sampleAlarm "other" 1000 2 2000000000 2000001000],
          scheduling := [sampleAlarm "other" 1000 2 2000000000 2000001000],
          calls := [Call.InsertOne (sampleAlarm "other" 1000 2 2000000000 2000001000)] },
        Response.json (sampleAlarm "other" 1000 2 2000000000 2000001000)) := by
  decide

/-- C3: a create request with timeout 9223372037 (an int64 value whose
product with 10^9 exceeds 2^63 - 1) is accepted with duration
-9223372036709551616 ns, which is not 9223372037 seconds, and with an expiry
time before startedAt: the multiplication of line 80 wraps around. -/
theorem C3_duration_wraps_for_large_timeout :
    (9223372037 : Int) ≤ maxDuration ∧
    maxDuration < Second * 9223372037 ∧
    (processPOST w0 (.json (sampleBody 9223372037)) 1000 none).2 =
      Response.json
        (sampleAlarm "h1" 1000 9223372037 (-9223372036709551616) (-9223372036709550616)) := by
  decide

/-- C4, as stated, fails: a create request with timeout -1 is accepted
(status 200), persisted and scheduled, and its expiry time lies before its
startedAt. -/
theorem C4_negative_timeout_accepted :
    processPOST w0 (.json (sampleBody (-1))) 1000 none =
      ({ w0 with
          collection := [sampleAlarm "h1" 1000 (-1) (-1000000000) (-999999000)],
          scheduling := [sampleAlarm "h1" 1000 (-1) (-1000000000) (-999999000)],
          calls := [Call.InsertOne (sampleAlarm "h1" 1000 (-1) (-1000000000) (-999999000))] },
        Response.json (sampleAlarm "h1" 1000 (-1) (-1000000000) (-999999000))) ∧
    (sampleAlarm "h1" 1000 (-1) (-1000000000) (-999999000)).CalculatedExpiryTime <
      (sampleAlarm "h1" 1000 (-1) (-1000000000) (-999999000)).StartedAt := by
  decide

/-- C4, amended: a create request with timeout 0 is answered 400 and changes
nothing (nothing persisted, nothing scheduled); every accepted alarm, which
is the alarm persisted and scheduled, has a non-zero timeout, and when that
timeout is positive and timeout * 10^9 fits in an int64 its expiry time is
not earlier than its startedAt.  A request with a non-zero timeout, negative
ones included, and the other compulsory fields passes validation and reaches
the store insert. -/
theorem C4_accepted_timeout_nonzero (w : World) (b : Body) (now : Int)
    (insertErr : Option String) :
    (b.timeout.getD 0 = 0 →
      (processPOST w (.json b) now insertErr).2.status = 400 ∧
      (processPOST w (.json b) now insertErr).1 = w) ∧
    (∀ e, (processPOST w (.json b) now insertErr).2 = .json e →
      e.Timeout ≠ 0 ∧
      (processPOST w (.json b) now insertErr).1.collection = w.collection ++ [e] ∧
      (processPOST w (.json b) now insertErr).1.scheduling = w.scheduling ++ [e] ∧
      (0 < e.Timeout → Second * e.Timeout ≤ maxDuration →
        e.StartedAt ≤ e.CalculatedExpiryTime)) ∧
    (b.timeout.getD 0 ≠ 0 → b.id.getD "" ≠ "" → b.event.getD "" ≠ "" →
      b.uri.getD "" ≠ "" →
      (processPOST w (.json b) now insertErr).1.calls =
        w.calls ++ [Call.InsertOne
          (stamp (decode b { zeroEcho with HostName := w.hostName }) now)]) := by
  refine ⟨?_, ?_, ?_⟩
  · intro h0
    have hv : missingField (decode b { zeroEcho with HostName := w.hostName }) := by
      right; right; left
      simpa [decode, zeroEcho] using h0
    rw [processPOST_invalid w b now insertErr hv]
    exact ⟨rfl, rfl⟩
  · intro e he
    obtain ⟨hv, hst, hcoll, hsch⟩ := processPOST_accepted w b now insertErr e he
    obtain ⟨_, _, hT, hS, hD, hE⟩ :=
      stamp_fields (decode b { zeroEcho with HostName := w.hostName }) now
    rw [← hst] at hT hS hD hE
    refine ⟨?_, hcoll, hsch, ?_⟩
    · intro hz
      apply hv
      right; right; left
      rw [← hT]; exact hz
    · intro hpos hfit
      rw [← hT] at hD hE
      have hw : wrap64 (Second * e.Timeout) = Second * e.Timeout := by
        apply wrap64_of_fits _ _ hfit
        unfold minDuration Second
        omega
      rw [hw] at hE
      rw [hS, hE]
      unfold Second
      omega
  · intro ht hi he hu
    apply processPOST_valid_calls
    simp only [missingField, decode, zeroEcho]
    rintro (h | h | h | h)
    · exact hi h
    · exact he h
    · exact ht h
    · exact hu h

/-! ## Recovery -/

/-- Whole seconds are monotone: an instant in an earlier Unix second is
earlier. -/
theorem lt_of_Unix_lt (a b : Int) (h : Unix a < Unix b) : a < b := by
  unfold Unix at h
  omega

/-- An instant at least one second earlier lies in an earlier Unix second. -/
theorem Unix_lt_of_second_passed (a b : Int) (h : a + Second ≤ b) : Unix a < Unix b := by
  unfold Unix
  unfold Second at h
  omega

/-- C5, as stated, fails: a record with ignoreMissed whose expiry time
(1.2 s after the epoch) is 0.5 s earlier than now (1.7 s) is not dropped but
handed to the scheduler, because both instants lie in the same Unix second. -/
theorem C5_subsecond_miss_is_scheduled :
    (sampleAlarm "h1" 200000000 1 1000000000 1200000000).CalculatedExpiryTime <
      (1700000000 : Int) ∧
    recoverRecord
        { sampleAlarm "h1" 200000000 1 1000000000 1200000000 with IgnoreMissed := true }
        1700000000 1700000000 =
      some { sampleAlarm "h1" 200000000 1 (-500000000) 1200000000 with
             IgnoreMissed := true } ∧
    recoveryLoop
        [(.ok { sampleAlarm "h1" 200000000 1 1000000000 1200000000 with
                IgnoreMissed := true }, 1700000000, 1700000000)] =
      [{ sampleAlarm "h1" 200000000 1 (-500000000) 1200000000 with
         IgnoreMissed := true }] := by
  decide

/-- C5, amended: a recovered record is dropped (the loop continues with the
next record, nothing is scheduled for it and no store call is made) if and
only if the Unix second of its expiry time is strictly earlier than the Unix
second of now and ignoreMissed is true; every other record is handed to the
scheduler under its own id.  A dropped record has its expiry time strictly
before now, and a record with ignoreMissed whose expiry time is at least one
second before now is dropped. -/
theorem C5_dropped_iff_earlier_second (e : echo) (now1 now2 : Int)
    (rest : List (Except String echo × Int × Int)) :
    (recoverRecord e now1 now2 = none ↔
      (Unix e.CalculatedExpiryTime < Unix now1 ∧ e.IgnoreMissed = true)) ∧
    (recoverRecord e now1 now2 = none →
      recoveryLoop ((.ok e, now1, now2) :: rest) = recoveryLoop rest) ∧
    (recoverRecord e now1 now2 ≠ none →
      ∃ e', e'.ID = e.ID ∧
        recoveryLoop ((.ok e, now1, now2) :: rest) = e' :: recoveryLoop rest) ∧
    (recoverRecord e now1 now2 = none →
      e.CalculatedExpiryTime < now1 ∧ e.IgnoreMissed = true) ∧
    (e.CalculatedExpiryTime + Second ≤ now1 → e.IgnoreMissed = true →
      recoverRecord e now1 now2 = none) ∧
    (∀ host coll cursor, (boot host coll cursor).collection = coll ∧
      (boot host coll cursor).calls = []) := by
  have hiff : recoverRecord e now1 now2 = none ↔
      (Unix e.CalculatedExpiryTime < Unix now1 ∧ e.IgnoreMissed = true) := by
    unfold recoverRecord
    split
    · next h => simp [h]
    · next h => simp [h]
  refine ⟨hiff, ?_, ?_, ?_, ?_, ?_⟩
  · intro h
    simp [recoveryLoop, h]
  · intro h
    cases hr : recoverRecord e now1 now2 with
    | none => exact absurd hr h
    | some e' =>
      refine ⟨e', ?_, by simp [recoveryLoop, hr]⟩
      unfold recoverRecord at hr
      split at hr
      · cases hr
      · injection hr with hr
        subst hr
        rfl
  · intro h
    obtain ⟨h1, h2⟩ := hiff.mp h
    exact ⟨lt_of_Unix_lt _ _ h1, h2⟩
  · intro h1 h2
    exact hiff.mpr ⟨Unix_lt_of_second_passed _ _ h1, h2⟩
  · intro host coll cursor
    exact ⟨rfl, rfl⟩

/-- C6, as stated, fails: a record without ignoreMissed whose expiry time
(1.2 s) passed 5 s ago (now is 6.2 s) is handed to the scheduler with
duration -5 s, not zero. -/
theorem C6_passed_deadline_gives_negative_duration :
    recoverRecord (sampleAlarm "h1" 200000000 1 1000000000 1200000000)
        6200000000 6200000000 =
      some (sampleAlarm "h1" 200000000 1 (-5000000000) 1200000000) ∧
    (sampleAlarm "h1" 200000000 1 (-5000000000) 1200000000).Duration ≠ 0 := by
  decide

/-- C6, amended: a recovered record that is not dropped is handed to the
scheduler with every field but the duration as recovered (so it keeps its
id), and its duration is expiryTime - now whenever that difference fits in a
time.Duration above the minimum: the remainder is negative, not clamped to
zero, when the deadline has passed.  The timer registered by `schedule`
carries that alarm, its firing starts `execCallback` with it, and the HTTP
POST sends it. -/
theorem C6_recovered_duration_is_remainder (e e' : echo) (now1 now2 : Int)
    (h : recoverRecord e now1 now2 = some e')
    (hlo : minDuration < e.CalculatedExpiryTime - now2)
    (hhi : e.CalculatedExpiryTime - now2 ≤ maxDuration) :
    e' = { e with Duration := e.CalculatedExpiryTime - now2 } ∧
    e'.ID = e.ID ∧
    (now2 > e.CalculatedExpiryTime → e'.Duration < 0) ∧
    (∀ w, (schedule w e').timers = w.timers ++ [{ status := .active, e := e' }] ∧
      mapGet (schedule w e').m e.ID = some w.timers.length ∧
      (timerFires (schedule w e') w.timers.length).executing =
        w.executing ++ [(w.timers.length, e')]) ∧
    (∀ w h, (execCallback w h e' none).calls =
      w.calls ++ [Call.DeleteOne e.ID, Call.Post h e']) := by
  unfold recoverRecord at h
  split at h
  · cases h
  · injection h with h
    have hs : Sub now2 e.CalculatedExpiryTime = now2 - e.CalculatedExpiryTime := by
      unfold Sub
      unfold minDuration at hlo
      unfold maxDuration at hhi
      rw [if_neg, if_neg]
      · unfold maxDuration; omega
      · unfold minDuration; omega
    have hd : wrap64 (-(Sub now2 e.CalculatedExpiryTime)) =
        e.CalculatedExpiryTime - now2 := by
      rw [hs]
      have : -(now2 - e.CalculatedExpiryTime) = e.CalculatedExpiryTime - now2 := by omega
      rw [this]
      exact wrap64_of_fits _ (le_of_lt hlo) hhi
    rw [hd] at h
    subst h
    refine ⟨rfl, rfl, ?_, ?_, ?_⟩
    · intro hgt
      show e.CalculatedExpiryTime - now2 < 0
      omega
    · intro w
      refine ⟨rfl, ?_, ?_⟩
      · simp [schedule, mapGet, mapSet, List.lookup]
      · simp [schedule, timerFires]
    · intro w h
      simp [execCallback, DeleteOne]

/-- The witness of C6: the record of the counterexample. -/
theorem C6_recovered_duration_is_remainder_witness :
    (sampleAlarm "h1" 200000000 1 (-5000000000) 1200000000).ID = "a1" ∧
    (sampleAlarm "h1" 200000000 1 (-5000000000) 1200000000).Duration < 0 :=
  have h := C6_recovered_duration_is_remainder
    (sampleAlarm "h1" 200000000 1 1000000000 1200000000)
    (sampleAlarm "h1" 200000000 1 (-5000000000) 1200000000)
    6200000000 6200000000 (by decide) (by decide) (by decide)
  ⟨h.2.1, h.2.2.1 (by decide)⟩

/-! ## Delivery -/

/-- C8, as stated, fails: when the store reports an error for the delete,
`execCallback` returns after the delete call and no HTTP POST is attempted. -/
theorem C8_failed_delete_suppresses_post :
    execCallback { w0 with collection := [sampleAlarm "h1" 1000 2 2000000000 2000001000] }
        0 (sampleAlarm "h1" 1000 2 2000000000 2000001000) (some "connection lost") =
      { w0 with
        collection := [sampleAlarm "h1" 1000 2 2000000000 2000001000],
        calls := [Call.DeleteOne "a1"] } := by
  decide

/-- C8, amended: the delivery step attempts the HTTP POST to the alarm's uri
if and only if the delete call on the store returned no error, whether or not
a record was deleted by it; when the delete call fails, the only outside call
is that delete, the state is otherwise unchanged, and no notification is
sent. -/
theorem C8_post_iff_delete_call_ok (w : World) (h : Nat) (e : echo)
    (deleteErr : Option String) :
    (Call.Post h e ∈ ((execCallback w h e deleteErr).calls.drop w.calls.length) ↔
      deleteErr = none) ∧
    (deleteErr = none →
      (execCallback w h e deleteErr).calls =
        w.calls ++ [Call.DeleteOne e.ID, Call.Post h e]) ∧
    (∀ msg, deleteErr = some msg →
      execCallback w h e deleteErr =
        { w with calls := w.calls ++ [Call.DeleteOne e.ID] }) := by
  cases deleteErr with
  | none => simp [execCallback, DeleteOne]
  | some msg => simp [execCallback, DeleteOne]

/-! ## Cancel requests -/

/-- The id a cancel request decodes to. -/
theorem decode_zero_ID (b : Body) (id : String) (hid : b.id = some id) :
    (decode b zeroEcho).ID = id := by
  simp [decode, hid]

/-- Cancel of an id without a registry entry. -/
theorem processDELETE_not_found (w : World) (b : Body) (deleteErr : Option String)
    (id : String) (hid : b.id = some id) (hne : id ≠ "")
    (hm : mapGet w.m id = none) :
    processDELETE w (.json b) deleteErr =
      (w, .error 400 "Schedule not found for the ID specified") := by
  have hd := decode_zero_ID b id hid
  simp only [processDELETE, hd, if_neg hne, hm]

/-- Cancel of an id whose timer cannot be stopped. -/
theorem processDELETE_stop_failed (w : World) (b : Body) (deleteErr : Option String)
    (id : String) (h : Nat) (hid : b.id = some id) (hne : id ≠ "")
    (hm : mapGet w.m id = some h) (hs : (Stop w.timers h).2 = false) :
    processDELETE w (.json b) deleteErr =
      (w, .error 400 "Something went wrong when attmpting to stop scheduled callback") := by
  have hd := decode_zero_ID b id hid
  cases hS : Stop w.timers h with
  | mk ts ok =>
    rw [hS] at hs
    simp only at hs
    subst hs
    simp only [processDELETE, hd, if_neg hne, hm, hS]

/-- Cancel of an id whose timer is stopped by the call: the entry leaves the
registry and the delete is issued against the store. -/
theorem processDELETE_stopped (w : World) (b : Body) (deleteErr : Option String)
    (id : String) (h : Nat) (hid : b.id = some id) (hne : id ≠ "")
    (hm : mapGet w.m id = some h) (hs : (Stop w.timers h).2 = true) :
    processDELETE w (.json b) deleteErr =
      match DeleteOne w.collection id deleteErr with
      | .error msg =>
        ({ w with timers := (Stop w.timers h).1, m := mapDelete w.m id,
                  calls := w.calls ++ [Call.DeleteOne id] }, .error 400 msg)
      | .ok (coll, _) =>
        ({ w with timers := (Stop w.timers h).1, m := mapDelete w.m id,
                  calls := w.calls ++ [Call.DeleteOne id], collection := coll },
          .json (decode b zeroEcho)) := by
  have hd := decode_zero_ID b id hid
  cases hS : Stop w.timers h with
  | mk ts ok =>
    rw [hS] at hs
    simp only at hs
    subst hs
    simp only [processDELETE, hd, if_neg hne, hm, hS]

/-- C7: for a cancel request with a non-empty id, if the registry has no
handle for the id, or has one whose stop fails, the answer is 400 and the
whole process state is unchanged (registry, timers, store, and no store call
is issued); a cancel request that issues a store call or changes the store
found a handle and stopped it. -/
theorem C7_failed_cancel_changes_nothing (w : World) (b : Body)
    (deleteErr : Option String) (id : String)
    (hid : b.id = some id) (hne : id ≠ "") :
    ((mapGet w.m id = none ∨
        ∃ h, mapGet w.m id = some h ∧ (Stop w.timers h).2 = false) →
      (processDELETE w (.json b) deleteErr).2.status = 400 ∧
      (processDELETE w (.json b) deleteErr).1 = w) ∧
    (((processDELETE w (.json b) deleteErr).1.calls ≠ w.calls ∨
        (processDELETE w (.json b) deleteErr).1.collection ≠ w.collection) →
      ∃ h, mapGet w.m id = some h ∧ (Stop w.timers h).2 = true) := by
  have hfail : (mapGet w.m id = none ∨
        ∃ h, mapGet w.m id = some h ∧ (Stop w.timers h).2 = false) →
      (processDELETE w (.json b) deleteErr).2.status = 400 ∧
      (processDELETE w (.json b) deleteErr).1 = w := by
    rintro (hm | ⟨h, hm, hs⟩)
    · rw [processDELETE_not_found w b deleteErr id hid hne hm]
      exact ⟨rfl, rfl⟩
    · rw [processDELETE_stop_failed w b deleteErr id h hid hne hm hs]
      exact ⟨rfl, rfl⟩
  refine ⟨hfail, ?_⟩
  intro hch
  cases hm : mapGet w.m id with
  | none =>
    have := (hfail (Or.inl hm)).2
    rw [this] at hch
    simp at hch
  | some h =>
    refine ⟨h, rfl, ?_⟩
    cases hs : (Stop w.timers h).2 with
    | true => rfl
    | false =>
      have := (hfail (Or.inr ⟨h, hm, hs⟩)).2
      rw [this] at hch
      simp at hch

/-- The witness of C7: cancelling `a1` after it fired is answered 400 and
changes nothing. -/
theorem C7_failed_cancel_changes_nothing_witness :
    (processDELETE wFired (.json { id := some "a1" }) none).2.status = 400 ∧
    (processDELETE wFired (.json { id := some "a1" }) none).1 = wFired :=
  (C7_failed_cancel_changes_nothing wFired { id := some "a1" } none "a1" rfl
    (by decide)).1 (Or.inr ⟨0, by decide, by decide⟩)

/-! ## Registry and store lemmas -/

/-- After `delete(_m, id)` the registry has no entry for `id`. -/
theorem mapGet_mapDelete_self (m : List (String × Nat)) (id : String) :
    mapGet (mapDelete m id) id = none := by
  induction m with
  | nil => rfl
  | cons kv rest ih =>
    unfold mapGet mapDelete at ih ⊢
    by_cases hk : kv.1 = id
    · simp [List.filter_cons, hk, ih]
    · have hk' : (id == kv.1) = false := by
        simp only [beq_eq_false_iff_ne, ne_eq]
        exact fun h => hk h.symm
      simp [List.filter_cons, hk, List.lookup, hk', ih]

/-- The builtin `delete(_m, id)` leaves every other entry as it was. -/
theorem mapGet_mapDelete_ne (m : List (String × Nat)) (id k : String) (hk : k ≠ id) :
    mapGet (mapDelete m id) k = mapGet m k := by
  induction m with
  | nil => rfl
  | cons kv rest ih =>
    unfold mapGet mapDelete at ih ⊢
    by_cases hkv : kv.1 = id
    · have hk' : (k == id) = false := by
        simp only [beq_eq_false_iff_ne, ne_eq]
        exact hk
      simp [List.filter_cons, hkv, List.lookup, hk', ih]
    · by_cases hkk : k = kv.1
      · simp [List.filter_cons, hkv, List.lookup, hkk]
      · have hk' : (k == kv.1) = false := by
          simp only [beq_eq_false_iff_ne, ne_eq]
          exact hkk
        simp [List.filter_cons, hkv, List.lookup, hk', ih]

/-- With unique ids, deleting the first document with an id deletes every
document with that id. -/
theorem eraseP_eq_filter_of_unique (coll : List echo) (id : String)
    (hu : uniqueIds coll) :
    coll.eraseP (fun d => d.ID == id) = coll.filter (fun d => d.ID != id) := by
  induction coll with
  | nil => rfl
  | cons d rest ih =>
    unfold uniqueIds at hu ih
    rw [List.map_cons, List.nodup_cons] at hu
    by_cases hd : d.ID = id
    · have hrest : ∀ x ∈ rest, (x.ID != id) = true := by
        intro x hx
        simp only [bne_iff_ne, ne_eq]
        intro hxid
        apply hu.1
        rw [hd, ← hxid]
        exact List.mem_map_of_mem _ hx
      simp [List.eraseP_cons, List.filter_cons, hd]
      exact (List.filter_eq_self.mpr hrest).symm
    · simp [List.eraseP_cons, List.filter_cons, hd]
      simpa using ih hu.2

/-- Deleting a document keeps ids unique. -/
theorem uniqueIds_eraseP (coll : List echo) (id : String) (hu : uniqueIds coll) :
    uniqueIds (coll.eraseP (fun d => d.ID == id)) := by
  unfold uniqueIds at hu ⊢
  exact List.Nodup.sublist (List.Sublist.map _ (List.eraseP_sublist coll)) hu

/-- A successful insert keeps ids unique. -/
theorem uniqueIds_InsertOne (coll : List echo) (e : echo) (err : Option String)
    (c : List echo) (h : InsertOne coll e err = .ok c) (hu : uniqueIds coll) :
    uniqueIds c := by
  unfold InsertOne at h
  cases err with
  | some msg => cases h
  | none =>
    simp only at h
    split at h
    · cases h
    · next hany =>
      injection h with h
      subst h
      unfold uniqueIds at hu ⊢
      rw [List.map_append, List.nodup_append]
      refine ⟨hu, by simp, ?_⟩
      intro x hx hx'
      simp only [List.map_cons, List.map_nil, List.mem_singleton] at hx'
      subst hx'
      apply hany
      rw [List.any_eq_true]
      obtain ⟨d, hd, hde⟩ := List.mem_map.mp hx
      exact ⟨d, hd, by simp [hde]⟩

/-- A successful `Stop` found an active timer and marks it stopped. -/
theorem Stop_true (ts : List Timer) (h : Nat) (hs : (Stop ts h).2 = true) :
    ∃ t, ts[h]? = some t ∧ t.status = .active ∧
      (Stop ts h).1 = ts.set h { t with status := .stopped } := by
  unfold Stop at hs ⊢
  cases ht : ts[h]? with
  | none => simp [ht] at hs
  | some t =>
    by_cases ha : t.status = .active
    · exact ⟨t, rfl, ha, by simp [ha]⟩
    · simp [ht, ha] at hs

/-! ## Invariants of executions -/

/-- Nothing changed: every timer is kept. -/
theorem Frozen_refl (ts : List Timer) : Frozen ts ts := fun _ _ h _ => h

/-- Freezing composes along two steps. -/
theorem Frozen_trans {ts ts' ts'' : List Timer} (h1 : Frozen ts ts')
    (h2 : Frozen ts' ts'') : Frozen ts ts'' :=
  fun h t ht hna => h2 h t (h1 h t ht hna) hna

/-- Changing an active timer freezes the others. -/
theorem Frozen_set_active (ts : List Timer) (h0 : Nat) (t0 x : Timer)
    (h0t : ts[h0]? = some t0) (ha : t0.status = .active) : Frozen ts (ts.set h0 x) := by
  intro h t ht hna
  by_cases hh : h0 = h
  · subst hh
    rw [h0t] at ht
    injection ht with ht
    subst ht
    exact absurd ha hna
  · rw [List.getElem?_set_ne hh]
    exact ht

/-- Creating a timer freezes the others. -/
theorem Frozen_append (ts l : List Timer) : Frozen ts (ts ++ l) := by
  intro h t ht _
  have hlt : h < ts.length := (List.getElem?_eq_some.mp ht).1
  rw [List.getElem?_append_left hlt]
  exact ht

/-- A step that changes nothing evolves the state. -/
theorem Evolves_refl (w : World) : Evolves w w :=
  ⟨Frozen_refl _, fun _ _ h => Or.inl h, fun h => h⟩

/-- The invariant is kept by a step that evolves the state. -/
theorem Inv_evolves {w w' : World} (hi : Inv w) (he : Evolves w w') : Inv w' := by
  refine ⟨he.unique hi.1, ?_⟩
  intro h e hd
  rcases he.deliveries h e hd with hold | hnew
  · obtain ⟨t, ht, hf⟩ := hi.2 h e hold
    refine ⟨t, he.frozen h t ht ?_, hf⟩
    rw [hf]; decide
  · exact hnew

/-- A create request evolves the state. -/
theorem processPOST_evolves (w : World) (body : ReqBody) (now : Int)
    (err : Option String) : Evolves w (processPOST w body now err).1 := by
  cases body with
  | absent => exact Evolves_refl w
  | malformed msg => exact Evolves_refl w
  | json b =>
    by_cases hv : missingField (decode b { zeroEcho with HostName := w.hostName })
    · rw [processPOST_invalid w b now err hv]
      exact Evolves_refl w
    · cases hI : InsertOne w.collection
          (stamp (decode b { zeroEcho with HostName := w.hostName }) now) err with
      | error msg =>
        simp only [processPOST, if_neg hv, hI]
        refine ⟨Frozen_refl _, ?_, fun h => h⟩
        intro h e hd
        left
        simpa [delivering] using hd
      | ok coll =>
        simp only [processPOST, if_neg hv, hI]
        refine ⟨Frozen_refl _, ?_, fun h => uniqueIds_InsertOne _ _ _ _ hI h⟩
        intro h e hd
        left
        simpa [delivering] using hd

/-- A cancel request evolves the state. -/
theorem processDELETE_evolves (w : World) (body : ReqBody)
    (err : Option String) : Evolves w (processDELETE w body err).1 := by
  cases body with
  | absent => exact Evolves_refl w
  | malformed msg => exact Evolves_refl w
  | json b =>
    cases hid : b.id with
    | none =>
      have hd : (decode b zeroEcho).ID = "" := by simp [decode, hid, zeroEcho]
      simp only [processDELETE, hd, if_true]
      exact Evolves_refl w
    | some id =>
      by_cases hne : id = ""
      · have hd : (decode b zeroEcho).ID = "" := by simp [decode, hid, hne]
        simp only [processDELETE, hd, if_true]
        exact Evolves_refl w
      · cases hm : mapGet w.m id with
        | none =>
          rw [processDELETE_not_found w b err id hid hne hm]
          exact Evolves_refl w
        | some h0 =>
          cases hs : (Stop w.timers h0).2 with
          | false =>
            rw [processDELETE_stop_failed w b err id h0 hid hne hm hs]
            exact Evolves_refl w
          | true =>
            rw [processDELETE_stopped w b err id h0 hid hne hm hs]
            obtain ⟨t0, ht0, ha, hset⟩ := Stop_true w.timers h0 hs
            have hfr : Frozen w.timers (Stop w.timers h0).1 := by
              rw [hset]
              exact Frozen_set_active _ _ _ _ ht0 ha
            cases err with
            | some msg =>
              simp only [DeleteOne]
              refine ⟨hfr, ?_, fun h => h⟩
              intro h e hd
              left
              simpa [delivering] using hd
            | none =>
              simp only [DeleteOne]
              refine ⟨hfr, ?_, fun h => uniqueIds_eraseP _ _ h⟩
              intro h e hd
              left
              simpa [delivering] using hd

/-- Every step evolves the state. -/
theorem step_evolves (w : World) (a : Action) : Evolves w (step w a) := by
  cases a with
  | request r now storeErr =>
    simp only [step, process]
    split
    · exact Evolves_refl w
    · split
      · exact processPOST_evolves w r.body now storeErr
      · split
        · exact processDELETE_evolves w r.body storeErr
        · exact Evolves_refl w
  | runSchedule i =>
    simp only [step]
    cases w.scheduling[i]? with
    | none => exact Evolves_refl w
    | some e =>
      refine ⟨Frozen_append _ _, ?_, fun h => h⟩
      intro h e' hd
      left
      exact hd
  | timerFires h0 =>
    simp only [step, timerFires]
    cases ht0 : w.timers[h0]? with
    | none => exact Evolves_refl w
    | some t0 =>
      by_cases ha : t0.status = .active
      · simp only [if_pos ha]
        refine ⟨Frozen_set_active _ _ _ _ ht0 ha, ?_, fun h => h⟩
        intro h e hd
        rcases hd with hex | hpost
        · simp only [List.mem_append, List.mem_singleton] at hex
          rcases hex with hold | hnew
          · exact Or.inl (Or.inl hold)
          · right
            injection hnew with hh he
            subst hh
            have hlt : h < w.timers.length := (List.getElem?_eq_some.mp ht0).1
            exact ⟨_, List.getElem?_set_self hlt, rfl⟩
        · exact Or.inl (Or.inr hpost)
      · simp only [if_neg ha]
        exact Evolves_refl w
  | runExec i deleteErr =>
    simp only [step]
    cases hx : w.executing[i]? with
    | none => exact Evolves_refl w
    | some he =>
      obtain ⟨h0, e0⟩ := he
      have hmem : (h0, e0) ∈ w.executing := List.getElem?_mem hx
      have hsub : ∀ x, x ∈ w.executing.eraseIdx i → x ∈ w.executing :=
        fun x hx' => (List.eraseIdx_sublist _ _).subset hx'
      cases deleteErr with
      | some msg =>
        simp only [execCallback, DeleteOne]
        refine ⟨Frozen_refl _, ?_, fun h => h⟩
        intro h e hd
        left
        rcases hd with hex | hpost
        · exact Or.inl (hsub _ hex)
        · right
          simpa using hpost
      | none =>
        simp only [execCallback, DeleteOne]
        refine ⟨Frozen_refl _, ?_, fun h => uniqueIds_eraseP _ _ h⟩
        intro h e hd
        left
        rcases hd with hex | hpost
        · exact Or.inl (hsub _ hex)
        · simp only [List.append_assoc, List.mem_append, List.mem_cons,
            List.mem_singleton, List.not_mem_nil, or_false] at hpost
          rcases hpost with hold | hdel | hnew
          · exact Or.inr hold
          · cases hdel
          · injection hnew with hh he
            subst hh; subst he
            exact Or.inl hmem

/-- Along an execution, timers that are not active stay as they are. -/
theorem run_frozen (w : World) (acts : List Action) :
    Frozen w.timers (run w acts).timers := by
  induction acts generalizing w with
  | nil => exact Frozen_refl _
  | cons a rest ih => exact Frozen_trans (step_evolves w a).frozen (ih (step w a))

/-- The invariant holds along executions. -/
theorem Inv_run {w : World} (hi : Inv w) (acts : List Action) : Inv (run w acts) := by
  induction acts generalizing w with
  | nil => exact hi
  | cons a rest ih => exact ih (Inv_evolves hi (step_evolves w a))

/-- The invariant holds in every reachable state. -/
theorem Reachable_inv {w : World} (hr : Reachable w) : Inv w := by
  obtain ⟨host, coll, cursor, acts, hu, rfl⟩ := hr
  apply Inv_run ?_ acts
  refine ⟨hu, ?_⟩
  intro h e hd
  rcases hd with hex | hpost
  · simp [boot] at hex
  · simp [boot] at hpost

/-! ## Successful cancel -/

/-- C9: in a reachable state, a cancel request for a non-empty id whose
registry handle is stopped by the call, with a store delete that succeeds, is
answered 200 with the decoded alarm; afterwards the registry has no entry for
the id and every other id keeps its handle, the store holds no record with
the id and exactly the other records it held, and in every continuation of
the execution the stopped timer never starts a delivery: no `execCallback`
is pending for it and no HTTP POST is attempted for it. -/
theorem C9_cancel_removes_entry_and_record (w : World) (b : Body) (id : String)
    (h : Nat) (hr : Reachable w) (hid : b.id = some id) (hne : id ≠ "")
    (hm : mapGet w.m id = some h) (hs : (Stop w.timers h).2 = true) :
    (processDELETE w (.json b) none).2 = .json (decode b zeroEcho) ∧
    (processDELETE w (.json b) none).2.status = 200 ∧
    mapGet (processDELETE w (.json b) none).1.m id = none ∧
    (∀ k, k ≠ id →
      mapGet (processDELETE w (.json b) none).1.m k = mapGet w.m k) ∧
    (∀ d ∈ (processDELETE w (.json b) none).1.collection, d.ID ≠ id) ∧
    (∀ d, d.ID ≠ id →
      (d ∈ (processDELETE w (.json b) none).1.collection ↔ d ∈ w.collection)) ∧
    (∀ acts e, ¬ delivering (run (processDELETE w (.json b) none).1 acts) h e) := by
  have hinv : Inv w := Reachable_inv hr
  have hev : Evolves w (processDELETE w (.json b) none).1 :=
    processDELETE_evolves w (.json b) none
  have hinv' : Inv (processDELETE w (.json b) none).1 := Inv_evolves hinv hev
  obtain ⟨t, ht, _, hset⟩ := Stop_true w.timers h hs
  have hlt : h < w.timers.length := (List.getElem?_eq_some.mp ht).1
  have hcoll : w.collection.eraseP (fun d => d.ID == id) =
      w.collection.filter (fun d => d.ID != id) :=
    eraseP_eq_filter_of_unique _ _ hinv.1
  have hout : processDELETE w (.json b) none =
      ({ w with timers := (Stop w.timers h).1, m := mapDelete w.m id,
                calls := w.calls ++ [Call.DeleteOne id],
                collection := w.collection.eraseP (fun d => d.ID == id) },
        .json (decode b zeroEcho)) := by
    rw [processDELETE_stopped w b none id h hid hne hm hs]
    rfl
  have hT : (processDELETE w (.json b) none).1.timers = (Stop w.timers h).1 := by
    rw [hout]
  have hM : (processDELETE w (.json b) none).1.m = mapDelete w.m id := by
    rw [hout]
  have hC : (processDELETE w (.json b) none).1.collection =
      w.collection.filter (fun d => d.ID != id) := by
    rw [hout, ← hcoll]
  have hR : (processDELETE w (.json b) none).2 = .json (decode b zeroEcho) := by
    rw [hout]
  have hst : ∀ acts, (run (processDELETE w (.json b) none).1 acts).timers[h]? =
      some { t with status := .stopped } := by
    intro acts
    apply run_frozen _ acts h
    · rw [hT, hset]
      exact List.getElem?_set_self hlt
    · intro hc
      cases hc
  refine ⟨hR, by rw [hR]; rfl, ?_, ?_, ?_, ?_, ?_⟩
  · rw [hM]
    exact mapGet_mapDelete_self _ _
  · intro k hk
    rw [hM]
    exact mapGet_mapDelete_ne _ _ _ hk
  · intro d hd
    rw [hC] at hd
    simpa using (List.mem_filter.mp hd).2
  · intro d hd
    rw [hC, List.mem_filter]
    simp [hd]
  · intro acts e hdel
    obtain ⟨t', ht', hf⟩ := (Inv_run hinv' acts).2 h e hdel
    rw [hst acts] at ht'
    injection ht' with ht'
    subst ht'
    cases hf

/-- The witness of C9: cancelling the pending alarm `a1`. -/
theorem C9_cancel_removes_entry_and_record_witness :
    (processDELETE wPending (.json { id := some "a1" }) none).2.status = 200 ∧
    mapGet (processDELETE wPending (.json { id := some "a1" }) none).1.m "a1" = none ∧
    (processDELETE wPending (.json { id := some "a1" }) none).1.collection = [] :=
  have h := C9_cancel_removes_entry_and_record wPending { id := some "a1" } "a1" 0
    ⟨"h1", [], [], _, by decide, rfl⟩ rfl (by decide) (by decide) (by decide)
  ⟨h.2.1, h.2.2.1, by decide⟩

/-! ## The registry after a timer has fired -/

/-- After `_m[k] = v`, an id that had an entry still has one. -/
theorem mapGet_mapSet_isSome (m : List (String × Nat)) (k id : String) (v h : Nat)
    (hm : mapGet m id = some h) : mapGet (mapSet m k v) id ≠ none := by
  by_cases hk : id = k
  · subst hk
    simp [mapGet, mapSet, List.lookup]
  · have hk' : (id == k) = false := by
      simp only [beq_eq_false_iff_ne, ne_eq]
      exact hk
    have := mapGet_mapDelete_ne m k id hk
    unfold mapGet mapDelete at this
    unfold mapGet at hm
    simp only [mapGet, mapSet, List.lookup, hk', this, hm]
    simp

/-- A create request does not touch the registry. -/
theorem processPOST_m (w : World) (body : ReqBody) (now : Int) (err : Option String) :
    (processPOST w body now err).1.m = w.m := by
  cases body with
  | absent => rfl
  | malformed msg => rfl
  | json b =>
    by_cases hv : missingField (decode b { zeroEcho with HostName := w.hostName })
    · rw [processPOST_invalid w b now err hv]
    · cases hI : InsertOne w.collection
          (stamp (decode b { zeroEcho with HostName := w.hostName }) now) err with
      | error msg => simp only [processPOST, if_neg hv, hI]
      | ok coll => simp only [processPOST, if_neg hv, hI]

/-- A cancel request that removes a registry entry stopped the timer of that
entry. -/
theorem processDELETE_entry_removed (w : World) (body : ReqBody) (err : Option String)
    (id : String) (h : Nat) (hm : mapGet w.m id = some h)
    (hnone : mapGet (processDELETE w body err).1.m id = none) :
    (Stop w.timers h).2 = true := by
  have hcontra : ∀ {P : Prop}, mapGet w.m id = none → P := by
    intro P hc
    rw [hm] at hc
    cases hc
  cases body with
  | absent => exact hcontra hnone
  | malformed msg => exact hcontra hnone
  | json b =>
    cases hid : b.id with
    | none =>
      have hd : (decode b zeroEcho).ID = "" := by simp [decode, hid, zeroEcho]
      simp only [processDELETE, hd, if_true] at hnone
      exact hcontra hnone
    | some id' =>
      by_cases hne : id' = ""
      · have hd : (decode b zeroEcho).ID = "" := by simp [decode, hid, hne]
        simp only [processDELETE, hd, if_true] at hnone
        exact hcontra hnone
      · cases hm' : mapGet w.m id' with
        | none =>
          rw [processDELETE_not_found w b err id' hid hne hm'] at hnone
          exact hcontra hnone
        | some h0 =>
          cases hs : (Stop w.timers h0).2 with
          | false =>
            rw [processDELETE_stop_failed w b err id' h0 hid hne hm' hs] at hnone
            exact hcontra hnone
          | true =>
            by_cases hii : id = id'
            · subst hii
              rw [hm] at hm'
              injection hm' with hm'
              subst hm'
              exact hs
            · rw [processDELETE_stopped w b err id' h0 hid hne hm' hs] at hnone
              have hkeep := mapGet_mapDelete_ne w.m id' id hii
              cases hD : DeleteOne w.collection id' err with
              | error msg =>
                rw [hD] at hnone
                simp only at hnone
                rw [hkeep] at hnone
                exact hcontra hnone
              | ok r =>
                rw [hD] at hnone
                simp only at hnone
                rw [hkeep] at hnone
                exact hcontra hnone

/-- An entry leaves the registry only in a `DELETE` request that stopped its
timer. -/
theorem step_entry_removed (w : World) (a : Action) (id : String) (h : Nat)
    (hm : mapGet w.m id = some h) (hnone : mapGet (step w a).m id = none) :
    ∃ r now err, a = .request r now err ∧ r.method = "DELETE" ∧
      (Stop w.timers h).2 = true := by
  have hcontra : ∀ {P : Prop}, mapGet w.m id = none → P := by
    intro P hc
    rw [hm] at hc
    cases hc
  cases a with
  | request r now storeErr =>
    refine ⟨r, now, storeErr, rfl, ?_⟩
    simp only [step, process] at hnone
    split at hnone
    · exact hcontra hnone
    · split at hnone
      · rw [processPOST_m] at hnone
        exact hcontra hnone
      · split at hnone
        · next hdel =>
          exact ⟨hdel, processDELETE_entry_removed w r.body storeErr id h hm hnone⟩
        · exact hcontra hnone
  | runSchedule i =>
    simp only [step] at hnone
    cases hx : w.scheduling[i]? with
    | none =>
      rw [hx] at hnone
      exact hcontra hnone
    | some e =>
      rw [hx] at hnone
      exact absurd hnone (mapGet_mapSet_isSome w.m e.ID id _ h hm)
  | timerFires h0 =>
    simp only [step, timerFires] at hnone
    split at hnone
    · split at hnone
      · exact hcontra hnone
      · exact hcontra hnone
    · exact hcontra hnone
  | runExec i deleteErr =>
    simp only [step] at hnone
    cases hx : w.executing[i]? with
    | none =>
      rw [hx] at hnone
      exact hcontra hnone
    | some he =>
      rw [hx] at hnone
      obtain ⟨h0, e0⟩ := he
      cases deleteErr with
      | some msg => exact hcontra hnone
      | none => exact hcontra hnone

/-- C10, as stated, fails: after alarm `a1` has been created, registered,
has fired and has been delivered (record deleted, HTTP POST attempted), the
registry still maps `a1` to its fired timer. -/
theorem C10_registry_keeps_fired_timer :
    mapGet wFired.m "a1" = some 0 ∧
    wFired.timers.map (fun t => t.status) = [TimerStatus.fired] ∧
    wFired.collection = [] ∧
    wFired.executing = [] ∧
    wFired.calls =
      [Call.InsertOne (sampleAlarm "h1" 1000 2 2000000000 2000001000),
       Call.DeleteOne "a1",
       Call.Post 0 (sampleAlarm "h1" 1000 2 2000000000 2000001000)] := by
  decide

/-- C10, amended: when the timer of a registered alarm fires, delivery is
started and the registry is left as it was: the entry for the alarm's id
still names the fired timer, and `execCallback` does not touch the registry
either.  A cancel issued after the fire finds that stale handle, fails to
stop it, and is answered 400 with the state unchanged.  In any step, an entry
leaves the registry only through a `DELETE` request that stopped its timer. -/
theorem C10_fired_timer_stays_registered (w : World) (id : String) (h : Nat)
    (t : Timer) (hm : mapGet w.m id = some h) (ht : w.timers[h]? = some t)
    (ha : t.status = .active) :
    (timerFires w h).m = w.m ∧
    mapGet (timerFires w h).m id = some h ∧
    (timerFires w h).timers[h]? = some { t with status := .fired } ∧
    (timerFires w h).executing = w.executing ++ [(h, t.e)] ∧
    (∀ (w' : World) (h' : Nat) (e : echo) (err : Option String),
      (execCallback w' h' e err).m = w'.m) ∧
    (∀ (b : Body) (err : Option String), b.id = some id → id ≠ "" →
      processDELETE (timerFires w h) (.json b) err =
        (timerFires w h,
          .error 400 "Something went wrong when attmpting to stop scheduled callback")) ∧
    (∀ (w' : World) (a : Action) (id' : String) (h' : Nat),
      mapGet w'.m id' = some h' → mapGet (step w' a).m id' = none →
      ∃ r now err, a = .request r now err ∧ r.method = "DELETE" ∧
        (Stop w'.timers h').2 = true) := by
  have hlt : h < w.timers.length := (List.getElem?_eq_some.mp ht).1
  have hf : timerFires w h =
      { w with timers := w.timers.set h { t with status := .fired },
               executing := w.executing ++ [(h, t.e)] } := by
    simp only [timerFires, ht, if_pos ha]
  have hft : (timerFires w h).timers[h]? = some { t with status := .fired } := by
    rw [hf]
    exact List.getElem?_set_self hlt
  have hfm : (timerFires w h).m = w.m := by rw [hf]
  refine ⟨hfm, by rw [hfm]; exact hm, hft, by rw [hf], ?_, ?_, step_entry_removed⟩
  · intro w' h' e err
    cases err with
    | some msg => rfl
    | none => rfl
  · intro b err hid hne
    apply processDELETE_stop_failed _ b err id h hid hne
    · rw [hfm]; exact hm
    · simp [Stop, hft]

/-- The witness of C10: the pending alarm `a1` fires; it stays registered and
a later cancel is answered 400. -/
theorem C10_fired_timer_stays_registered_witness :
    mapGet (timerFires wPending 0).m "a1" = some 0 ∧
    (processDELETE (timerFires wPending 0) (.json { id := some "a1" }) none).2.status = 400 :=
  have h := C10_fired_timer_stays_registered wPending "a1" 0
    { status := .active, e := sampleAlarm "h1" 1000 2 2000000000 2000001000 }
    (by decide) (by decide) rfl
  ⟨h.2.1, by rw [h.2.2.2.2.2.1 { id := some "a1" } none rfl (by decide)]; rfl⟩

end Golarm
